import Mathlib

/-!
Verification development for the docgen compiler orchestrator
(packages/docgen/src/compiler.ts).

The file shallowly embeds the orchestrator: configuration loading and
merging (loadOptions), the option overrides applied before program
creation, the build-then-sort-then-write document pipeline of main, and
the process-level runner. Collaborators that live outside the
orchestrator (ApiDocGenerator.toDoc, ApiDocPrinter.print) are abstracted
as function parameters. The sortSelector module is not part of the
orchestrator file and is modelled from the specification. JS strings are
modelled as Lean strings, JS objects holding compiler options as
key-value entry lists queried by first-match lookup, thrown JS errors as
Except values, and the JS call stack of the recursive loadOptions as
explicit fuel.
-/

/-- Single-quote character used by the manifest entry format. -/
def squote : String := (Char.ofNat 39).toString

/-- Model of node path.dirname: the part of the path before the last slash,
a dot when the path has no slash. -/
def dirname (p : String) : String :=
  let rev := p.data.reverse
  if rev.contains (Char.ofNat 47) then
    String.mk (((rev.dropWhile (fun c => !(c == Char.ofNat 47))).drop 1).reverse)
  else
    "."

/-- Model of node path.join for its one use in loadOptions. -/
def joinPath (a b : String) : String := a ++ "/" ++ b

/-- Model of the JS test parent.startsWith of a dot in loadOptions. -/
def startsWithDot (p : String) : Bool :=
  match p.data with
  | [] => false
  | c :: _ => c == Char.ofNat 46

/-- A compiler option value: a JSON scalar. -/
inductive OptValue
  | bool (b : Bool)
  | str (s : String)
  | num (n : Int)
deriving DecidableEq

/-- A ts.CompilerOptions object, modelled by its key-value entries. -/
abbrev Options := List (String × OptValue)

/-- Property lookup on an options object: the first matching key wins. -/
def lookupOpt (opts : Options) (k : String) : Option OptValue :=
  match opts with
  | [] => none
  | kv :: rest => if kv.1 = k then some kv.2 else lookupOpt rest k

/-- Model of the JS delete of a property: the key is removed. -/
def delOpt (opts : Options) (k : String) : Options :=
  opts.filter (fun kv => !(kv.1 == k))

/-- Model of a JS property assignment: the key now maps to the value and
every other key is unchanged. -/
def setOpt (opts : Options) (k : String) (v : OptValue) : Options :=
  (k, v) :: delOpt opts k

/-- Model of the object spread in loadOptions: under first-match lookup the
child entries override the parent entries and parent-only keys remain. -/
def mergeOpts (parent child : Options) : Options :=
  child ++ parent

/-- A tsconfig-style configuration file: the optional extends path and the
compilerOptions object. The extends field is named extendsPath because
extends is reserved in Lean. -/
structure TsConfig where
  extendsPath : Option String
  compilerOptions : Options
deriving DecidableEq

/-- Resolution of the declared parent path (compiler.ts lines 37-39): a
parent beginning with a dot is joined onto the directory of the child
configuration file, any other parent is used as given. -/
def resolveParent (path parent : String) : String :=
  if startsWithDot parent then joinPath (dirname path) parent else parent

/-- Shallow embedding of loadOptions (compiler.ts lines 30-42). The module
system is abstracted as fs, mapping a path to the configuration it holds.
The fuel counts remaining recursive calls: loadOptions performs no cycle
detection, so an exhausted fuel models a stack that never unwinds. -/
def loadOptions (fs : String → Option TsConfig) : Nat → String → Option Options
  | 0, _ => none
  | fuel + 1, path =>
    match fs path with
    | none => none
    | some config =>
      match config.extendsPath with
      | none => some config.compilerOptions
      | some parent =>
        match loadOptions fs fuel (resolveParent path parent) with
        | none => none
        | some parentOpts => some (mergeOpts parentOpts config.compilerOptions)

/-- The extends chain starting at a path reaches a parentless configuration
after n extension steps: the finite-acyclic-chain precondition. -/
inductive ChainDepth (fs : String → Option TsConfig) : String → Nat → Prop
  | base (path : String) (c : TsConfig) :
      fs path = some c → c.extendsPath = none → ChainDepth fs path 0
  | step (path : String) (c : TsConfig) (parent : String) (n : Nat) :
      fs path = some c → c.extendsPath = some parent →
      ChainDepth fs (resolveParent path parent) n → ChainDepth fs path (n + 1)

/-- The option mutations of main before ts.createProgram (lines 55-57):
moduleResolution is deleted, then removeComments is set to false and
noEmit to true. -/
def prepareOptions (options : Options) : Options :=
  setOpt (setOpt (delOpt options ("moduleResolution")) ("removeComments") (OptValue.bool false))
    ("noEmit") (OptValue.bool true)

/-- Modelled from the spec: the primary sort key of sortSelector
(docgen/sortSelector.ts, not under src/) - the projection of the item
folded to lower case, compared as a code-point sequence. -/
def sortKey {α : Type} (proj : α → String) (x : α) : List Char :=
  (proj x).data.map Char.toLower

/-- Modelled from the spec: code-point-wise lexicographic comparison of two
key sequences, the comparison underlying sortSelector. -/
def lexCompare : List Char → List Char → Ordering
  | [], [] => Ordering.eq
  | [], _ :: _ => Ordering.lt
  | _ :: _, [] => Ordering.gt
  | a :: as, b :: bs =>
    if a < b then Ordering.lt
    else if b < a then Ordering.gt
    else lexCompare as bs

/-- Modelled from the spec: the comparator factory sortSelector
(docgen/sortSelector.ts, not under src/) - primary key = projection of the
item compared case-insensitively as a code-point sequence; ties are left
to the stable sort, which keeps the original input position. -/
def sortSelector {α : Type} (proj : α → String) (a b : α) : Ordering :=
  lexCompare (sortKey proj a) (sortKey proj b)

/-- The non-strict order induced by a comparator: a may precede b exactly
when the comparator does not order a after b. -/
def cmpLe {α : Type} (cmp : α → α → Ordering) (a b : α) : Bool :=
  match cmp a b with
  | Ordering.gt => false
  | _ => true

/-- Insertion before the first element the new element may precede; the
helper of the stable sort model. -/
def insertBy {α : Type} (le : α → α → Bool) (x : α) : List α → List α
  | [] => [x]
  | y :: ys => if le x y then x :: y :: ys else y :: insertBy le x ys

/-- Stable insertion sort with respect to a boolean order. -/
def insertionSortBy {α : Type} (le : α → α → Bool) : List α → List α
  | [] => []
  | x :: xs => insertBy le x (insertionSortBy le xs)

/-- Model of Array.prototype.sort with a comparator: a stable,
comparator-nondecreasing reordering, as ECMAScript 2019 guarantees. -/
def jsStableSort {α : Type} (cmp : α → α → Ordering) (l : List α) : List α :=
  insertionSortBy (cmpLe cmp) l

/-- Adjacent-pairs sortedness with respect to a boolean order. -/
def SortedBy {α : Type} (le : α → α → Bool) : List α → Prop
  | [] => True
  | [_] => True
  | x :: y :: l => le x y = true ∧ SortedBy le (y :: l)

/-- The tie-broken document order of the spec on pairs of an item and its
original position: strictly smaller primary key, or equal primary key and
no later original position. -/
def tieLe {α : Type} (proj : α → String) (p q : α × Nat) : Prop :=
  lexCompare (sortKey proj p.1) (sortKey proj q.1) = Ordering.lt ∨
    (sortKey proj p.1 = sortKey proj q.1 ∧ p.2 ≤ q.2)

/-- Source file reference of a discovered call (api.source in compiler.ts). -/
structure SourceFile where
  fileName : String
deriving DecidableEq

/-- A discovered exported factory call, as consumed by main. -/
structure Api where
  name : String
  source : SourceFile
deriving DecidableEq

/-- The document fields main reads: the navigation id and the artifact base
name. -/
structure Doc where
  id : String
  name : String
deriving DecidableEq

/-- The per-call build step of main (lines 72-81): each api is turned into a
document in order; a toDoc failure is wrapped with the originating source
file name and the underlying stack, and aborts the whole map. -/
def buildDocs (toDoc : Api → Except String Doc) : List Api → Except String (List Doc)
  | [] => Except.ok []
  | api :: rest =>
    match toDoc api with
    | Except.error err =>
      Except.error ("Doc generation failed for API in " ++ api.source.fileName ++ ", " ++ err)
    | Except.ok doc =>
      match buildDocs toDoc rest with
      | Except.error e => Except.error e
      | Except.ok docs => Except.ok (doc :: docs)

/-- Output path of a per-document artifact (line 94): the docs directory
under apiRefsDir, file name derived from the document name. -/
def docPath (apiRefsDir name : String) : String :=
  apiRefsDir ++ "/docs/" ++ name ++ ".md"

/-- One navigation line of the manifest (line 104): two-space indent, dash,
document id, colon, quoted artifact file name. -/
def manifestEntry (d : Doc) : String :=
  "  - " ++ d.id ++ ": " ++ squote ++ d.name ++ ".md" ++ squote

/-- Lines joined as by Array.prototype.join with a newline separator. -/
def joinLines : List String → String
  | [] => ""
  | [s] => s
  | s :: rest => s ++ "\n" ++ joinLines rest

/-- Manifest content written to mkdocs.yml (lines 98-106): the site title
line, the nav header, then one entry per document in document-set order. -/
def manifestContent (apiDocs : List Doc) : String :=
  joinLines (("site_name: api-references") :: ("nav:") :: apiDocs.map manifestEntry)

/-- Path of the manifest artifact. -/
def mkdocsPath (apiRefsDir : String) : String := apiRefsDir ++ "/mkdocs.yml"

/-- The artifacts a successful run writes: the per-document files and the
manifest with their contents. -/
structure Output where
  docFiles : List (String × String)
  manifest : String × String
deriving DecidableEq

namespace Compiler

/-- Shallow embedding of main's document pipeline (lines 72-106): build all
documents (aborting on the first failure), sort them with sortSelector on
the document id, and only then produce the writes - the per-document
artifacts and the manifest. toDoc, print and apiRefsDir abstract the
collaborators and the environment-derived output directory. -/
def main (toDoc : Api → Except String Doc) (print : Doc → String)
    (apiRefsDir : String) (apis : List Api) : Except String Output :=
  match buildDocs toDoc apis with
  | Except.error e => Except.error e
  | Except.ok docs =>
    let apiDocs := jsStableSort (sortSelector (fun x => x.id)) docs
    Except.ok
      { docFiles := apiDocs.map (fun d => (docPath apiRefsDir d.name, print d)),
        manifest := (mkdocsPath apiRefsDir, manifestContent apiDocs) }

end Compiler

/-- The files a run leaves on disk: none when main fails, since every write
is issued after the full document set is built and sorted. -/
def writtenArtifacts : Except String Output → List (String × String)
  | Except.error _ => []
  | Except.ok o => o.docFiles ++ [o.manifest]

/-- The process-level runner (lines 109-112): a rejected main reports the
error and exits with status 1, a fulfilled main exits with status 0. -/
def runProcess : Except String Output → Nat × Option String
  | Except.error e => (1, some e)
  | Except.ok _ => (0, none)

/-- Sample document with the first scenario id. -/
def docA : Doc := { id := "a.ref", name := "apiA" }

/-- Sample document with the second scenario id. -/
def docB : Doc := { id := "b.ref", name := "apiB" }

/-- Sample api that builds docA. -/
def apiA : Api := { name := "apiA", source := { fileName := "a.ts" } }

/-- Sample api that builds docB. -/
def apiB : Api := { name := "apiB", source := { fileName := "b.ts" } }

/-- Sample api whose build fails. -/
def apiBad : Api := { name := "broken", source := { fileName := "bad.ts" } }

/-- Sample builder: fails on apiBad, otherwise yields docA or docB. -/
def sampleToDoc : Api → Except String Doc := fun api =>
  if api.source.fileName = "bad.ts" then Except.error ("boom")
  else if api.name = "apiA" then Except.ok docA
  else Except.ok docB

/-- Sample printer. -/
def samplePrint : Doc → String := fun d => "# " ++ d.name

/-- Sample module system with a two-configuration extends cycle. -/
def cycFs : String → Option TsConfig := fun p =>
  if p = "a.json" then some { extendsPath := some ("b.json"), compilerOptions := [] }
  else if p = "b.json" then some { extendsPath := some ("a.json"), compilerOptions := [] }
  else none

/-- Sample module system with a child configuration extending a parentless
base configuration. -/
def chainFs : String → Option TsConfig := fun p =>
  if p = "base.json" then
    some { extendsPath := none,
           compilerOptions := [("target", OptValue.str ("es5")), ("noEmit", OptValue.bool false)] }
  else if p = "child.json" then
    some { extendsPath := some ("base.json"),
           compilerOptions := [("noEmit", OptValue.bool true)] }
  else none

/-- Reflexivity: comparing a key sequence with itself yields eq. -/
theorem lexCompare_self (a : List Char) : lexCompare a a = Ordering.eq := by
  induction a with
  | nil => rfl
  | cons c cs ih => simp [lexCompare, lt_irrefl, ih]

/-- An eq comparison forces the two key sequences to be equal. -/
theorem lexCompare_eq_eq (a : List Char) :
    ∀ b, lexCompare a b = Ordering.eq → a = b := by
  induction a with
  | nil =>
    intro b h
    cases b with
    | nil => rfl
    | cons d ds => simp [lexCompare] at h
  | cons c cs ih =>
    intro b h
    cases b with
    | nil => simp [lexCompare] at h
    | cons d ds =>
      by_cases h1 : c < d
      · simp [lexCompare, h1] at h
      · by_cases h2 : d < c
        · simp [lexCompare, h1, h2] at h
        · have hcd : c = d := le_antisymm (not_lt.mp h2) (not_lt.mp h1)
          simp [lexCompare, h1, h2] at h
          rw [hcd, ih ds h]

/-- A gt comparison is exactly an lt comparison the other way round. -/
theorem lexCompare_gt_iff (a : List Char) :
    ∀ b, lexCompare a b = Ordering.gt ↔ lexCompare b a = Ordering.lt := by
  induction a with
  | nil =>
    intro b
    cases b with
    | nil => simp [lexCompare]
    | cons d ds => simp [lexCompare]
  | cons c cs ih =>
    intro b
    cases b with
    | nil => simp [lexCompare]
    | cons d ds =>
      by_cases h1 : c < d
      · have h2 : ¬ d < c := not_lt.mpr (le_of_lt h1)
        simp [lexCompare, h1, h2]
      · by_cases h2 : d < c
        · simp [lexCompare, h1, h2]
        · simp [lexCompare, h1, h2, ih ds]

/-- Strict lexicographic comparison is transitive. -/
theorem lexCompare_lt_trans :
    ∀ a b c : List Char, lexCompare a b = Ordering.lt →
      lexCompare b c = Ordering.lt → lexCompare a c = Ordering.lt := by
  intro a
  induction a with
  | nil =>
    intro b c hab hbc
    cases b with
    | nil => simpa [lexCompare] using hbc
    | cons d ds =>
      cases c with
      | nil => simp [lexCompare] at hbc
      | cons e es => simp [lexCompare]
  | cons x xs ih =>
    intro b c hab hbc
    cases b with
    | nil => simp [lexCompare] at hab
    | cons d ds =>
      cases c with
      | nil => simp [lexCompare] at hbc
      | cons e es =>
        by_cases h1 : x < d
        · by_cases h2 : d < e
          · simp [lexCompare, lt_trans h1 h2]
          · by_cases h3 : e < d
            · simp [lexCompare, h2, h3] at hbc
            · have hde : d = e := le_antisymm (not_lt.mp h3) (not_lt.mp h2)
              rw [← hde]
              simp [lexCompare, h1]
        · by_cases h4 : d < x
          · simp [lexCompare, h1, h4] at hab
          · have hxd : x = d := le_antisymm (not_lt.mp h4) (not_lt.mp h1)
            simp [lexCompare, h1, h4] at hab
            by_cases h2 : d < e
            · rw [hxd]
              simp [lexCompare, h2]
            · by_cases h3 : e < d
              · simp [lexCompare, h2, h3] at hbc
              · have hde : d = e := le_antisymm (not_lt.mp h3) (not_lt.mp h2)
                simp [lexCompare, h2, h3] at hbc
                have hxe : ¬ x < e := by rw [hxd, hde] at *; exact lt_irrefl e
                have hex : ¬ e < x := by rw [hxd, hde] at *; exact lt_irrefl e
                simp [lexCompare, hxe, hex, ih ds es hab hbc]

/-- The non-strict comparator order is false exactly on gt comparisons. -/
theorem cmpLe_false_iff {α : Type} (cmp : α → α → Ordering) (a b : α) :
    cmpLe cmp a b = false ↔ cmp a b = Ordering.gt := by
  unfold cmpLe
  cases cmp a b <;> simp

/-- The non-strict comparator order is true exactly on non-gt comparisons. -/
theorem cmpLe_true_iff {α : Type} (cmp : α → α → Ordering) (a b : α) :
    cmpLe cmp a b = true ↔ cmp a b ≠ Ordering.gt := by
  unfold cmpLe
  cases cmp a b <;> simp

/-- The order induced by the sortSelector comparator is total. -/
theorem sortSelector_le_total {α : Type} (proj : α → String) (a b : α) :
    cmpLe (sortSelector proj) a b = true ∨ cmpLe (sortSelector proj) b a = true := by
  rw [cmpLe_true_iff, cmpLe_true_iff]
  by_cases h : sortSelector proj a b = Ordering.gt
  · right
    unfold sortSelector at *
    rw [(lexCompare_gt_iff _ _).mp h]
    simp
  · left
    exact h

/-- The order induced by the sortSelector comparator is transitive. -/
theorem sortSelector_le_trans {α : Type} (proj : α → String) {a b c : α}
    (hab : cmpLe (sortSelector proj) a b = true)
    (hbc : cmpLe (sortSelector proj) b c = true) :
    cmpLe (sortSelector proj) a c = true := by
  rw [cmpLe_true_iff] at hab hbc ⊢
  unfold sortSelector at hab hbc ⊢
  rcases hcab : lexCompare (sortKey proj a) (sortKey proj b) with h1 | h1 | h1
  · rcases hcbc : lexCompare (sortKey proj b) (sortKey proj c) with h2 | h2 | h2
    · rw [lexCompare_lt_trans _ _ _ hcab hcbc]
      simp
    · rw [← lexCompare_eq_eq _ _ hcbc, hcab]
      simp
    · exact absurd hcbc hbc
  · rw [lexCompare_eq_eq _ _ hcab]
    exact hbc
  · exact absurd hcab hab

/-- Sortedness of a tail. -/
theorem sortedBy_tail {α : Type} (le : α → α → Bool) (x : α) (l : List α)
    (h : SortedBy le (x :: l)) : SortedBy le l := by
  cases l with
  | nil => trivial
  | cons y ys => exact h.2

/-- Insertion into a sorted list keeps it sorted, given a total order. -/
theorem insertBy_sorted {α : Type} (le : α → α → Bool)
    (total : ∀ a b, le a b = true ∨ le b a = true) (x : α) :
    ∀ l, SortedBy le l → SortedBy le (insertBy le x l) := by
  intro l
  induction l with
  | nil => intro h; trivial
  | cons y ys ih =>
    intro h
    by_cases hxy : le x y = true
    · simp only [insertBy, hxy, if_true]
      exact ⟨hxy, h⟩
    · have hyx : le y x = true := (total x y).resolve_left hxy
      simp only [insertBy, hxy, if_false]
      cases ys with
      | nil => exact ⟨hyx, trivial⟩
      | cons z zs =>
        have hsYz := h.1
        have hTail : SortedBy le (insertBy le x (z :: zs)) := ih h.2
        by_cases hxz : le x z = true
        · simp only [insertBy, hxz, if_true] at hTail ⊢
          exact ⟨hyx, hTail⟩
        · simp only [insertBy, hxz, if_false] at hTail ⊢
          exact ⟨hsYz, hTail⟩

/-- The insertion sort model always produces a sorted list. -/
theorem insertionSortBy_sorted {α : Type} (le : α → α → Bool)
    (total : ∀ a b, le a b = true ∨ le b a = true) :
    ∀ l, SortedBy le (insertionSortBy le l) := by
  intro l
  induction l with
  | nil => trivial
  | cons x xs ih => exact insertBy_sorted le total x _ ih

/-- Sorting a sorted list leaves it unchanged. -/
theorem insertionSortBy_of_sorted {α : Type} (le : α → α → Bool) :
    ∀ l, SortedBy le l → insertionSortBy le l = l := by
  intro l
  induction l with
  | nil => intro h; rfl
  | cons x xs ih =>
    intro h
    have hxs : insertionSortBy le xs = xs := ih (sortedBy_tail le x xs h)
    simp only [insertionSortBy, hxs]
    cases xs with
    | nil => rfl
    | cons y ys => simp only [insertBy, h.1, if_true]

/-- The insertion sort model preserves length. -/
theorem insertBy_length {α : Type} (le : α → α → Bool) (x : α) :
    ∀ l, (insertBy le x l).length = l.length + 1 := by
  intro l
  induction l with
  | nil => rfl
  | cons y ys ih =>
    by_cases hxy : le x y = true
    · simp [insertBy, hxy]
    · simp [insertBy, hxy, ih]

/-- Sorting preserves length. -/
theorem insertionSortBy_length {α : Type} (le : α → α → Bool) :
    ∀ l, (insertionSortBy le l).length = l.length := by
  intro l
  induction l with
  | nil => rfl
  | cons x xs ih => simp [insertionSortBy, insertBy_length, ih]

/-- A gt comparison separates the primary keys. -/
theorem sortKey_ne_of_gt {α : Type} (proj : α → String) {a b : α}
    (h : sortSelector proj a b = Ordering.gt) :
    ¬ sortKey proj a = sortKey proj b := by
  intro he
  unfold sortSelector at h
  rw [he, lexCompare_self] at h
  exact absurd h (by simp)

/-- Inserting an element threads it in front of every element sharing its
primary key, and past no element sharing it. -/
theorem filter_insertBy {α : Type} (proj : α → String) (k : List Char) (x : α) :
    ∀ l, (insertBy (cmpLe (sortSelector proj)) x l).filter
        (fun z => sortKey proj z == k) =
      if sortKey proj x == k then
        x :: l.filter (fun z => sortKey proj z == k)
      else l.filter (fun z => sortKey proj z == k) := by
  intro l
  induction l with
  | nil =>
    simp only [insertBy, List.filter]
    cases hx : (sortKey proj x == k) <;> simp [hx]
  | cons y ys ih =>
    by_cases hxy : cmpLe (sortSelector proj) x y = true
    · simp only [insertBy, hxy, if_true]
      cases hx : (sortKey proj x == k) <;> simp [List.filter, hx]
    · have hgt : sortSelector proj x y = Ordering.gt := by
        rw [← cmpLe_false_iff]
        simpa using hxy
      have hne : ¬ sortKey proj x = sortKey proj y := sortKey_ne_of_gt proj hgt
      simp only [insertBy, hxy, if_false]
      cases hx : (sortKey proj x == k) with
      | true =>
        have hkx : sortKey proj x = k := by simpa using hx
        have hy : (sortKey proj y == k) = false := by
          rw [beq_eq_false_iff_ne]
          rw [hkx] at hne
          exact fun hc => hne hc.symm
        simp [List.filter, hy, ih, hx]
      | false =>
        cases hy : (sortKey proj y == k) <;> simp [List.filter, hy, ih, hx]

/-- Sorting does not change the subsequence of any fixed primary key:
stability of the sort under projection ties. -/
theorem filter_insertionSortBy {α : Type} (proj : α → String) (k : List Char) :
    ∀ l : List α, (insertionSortBy (cmpLe (sortSelector proj)) l).filter
        (fun z => sortKey proj z == k) =
      l.filter (fun z => sortKey proj z == k) := by
  intro l
  induction l with
  | nil => rfl
  | cons x xs ih =>
    simp only [insertionSortBy, filter_insertBy, ih]
    cases hx : (sortKey proj x == k) <;> simp [List.filter, hx]

/-- The tie-broken document order is total. -/
theorem tieLe_total {α : Type} (proj : α → String) (p q : α × Nat) :
    tieLe proj p q ∨ tieLe proj q p := by
  cases h : lexCompare (sortKey proj p.1) (sortKey proj q.1) with
  | lt => exact Or.inl (Or.inl h)
  | eq =>
    have hk := lexCompare_eq_eq _ _ h
    cases Nat.le_total p.2 q.2 with
    | inl hle => exact Or.inl (Or.inr ⟨hk, hle⟩)
    | inr hle => exact Or.inr (Or.inr ⟨hk.symm, hle⟩)
  | gt => exact Or.inr (Or.inl ((lexCompare_gt_iff _ _).mp h))

/-- The tie-broken document order is transitive. -/
theorem tieLe_trans {α : Type} (proj : α → String) {p q r : α × Nat}
    (hpq : tieLe proj p q) (hqr : tieLe proj q r) : tieLe proj p r := by
  cases hpq with
  | inl h1 =>
    cases hqr with
    | inl h2 => exact Or.inl (lexCompare_lt_trans _ _ _ h1 h2)
    | inr h2 => exact Or.inl (h2.1 ▸ h1)
  | inr h1 =>
    cases hqr with
    | inl h2 => exact Or.inl (h1.1 ▸ h2)
    | inr h2 => exact Or.inr ⟨h1.1.trans h2.1, Nat.le_trans h1.2 h2.2⟩

/-- The tie-broken document order is antisymmetric: mutually related pairs
share the primary key and the original position. -/
theorem tieLe_antisymm {α : Type} (proj : α → String) {p q : α × Nat}
    (hpq : tieLe proj p q) (hqp : tieLe proj q p) :
    sortKey proj p.1 = sortKey proj q.1 ∧ p.2 = q.2 := by
  cases hpq with
  | inl h1 =>
    cases hqp with
    | inl h2 =>
      have := lexCompare_lt_trans _ _ _ h1 h2
      rw [lexCompare_self] at this
      exact absurd this (by simp)
    | inr h2 =>
      rw [h2.1] at h1
      rw [lexCompare_self] at h1
      exact absurd h1 (by simp)
  | inr h1 =>
    cases hqp with
    | inl h2 =>
      rw [h1.1] at h2
      rw [lexCompare_self] at h2
      exact absurd h2 (by simp)
    | inr h2 => exact ⟨h1.1, Nat.le_antisymm h1.2 h2.2⟩

/-- Lookup distributes over appended option objects: the left entries win. -/
theorem lookupOpt_append (a b : Options) (k : String) :
    lookupOpt (a ++ b) k =
      match lookupOpt a k with
      | some v => some v
      | none => lookupOpt b k := by
  induction a with
  | nil => rfl
  | cons kv rest ih =>
    by_cases h : kv.1 = k
    · simp [lookupOpt, h]
    · simp [lookupOpt, h, ih]

/-- A deleted key no longer resolves. -/
theorem lookupOpt_delOpt_self (opts : Options) (k : String) :
    lookupOpt (delOpt opts k) k = none := by
  induction opts with
  | nil => rfl
  | cons kv rest ih =>
    by_cases h : kv.1 = k
    · simp [delOpt, List.filter, h] at ih ⊢
      exact ih
    · have hb : (kv.1 == k) = false := by
        rw [beq_eq_false_iff_ne]
        exact h
      simp [delOpt, List.filter, hb, lookupOpt, h] at ih ⊢
      exact ih

/-- Deleting one key leaves every other key unchanged. -/
theorem lookupOpt_delOpt_ne (opts : Options) {k q : String} (h : q ≠ k) :
    lookupOpt (delOpt opts k) q = lookupOpt opts q := by
  have hkq : ¬ k = q := fun hc => h hc.symm
  have hqb : (q == k) = false := by
    rw [beq_eq_false_iff_ne]
    exact h
  induction opts with
  | nil => rfl
  | cons kv rest ih =>
    by_cases hk : kv.1 = k
    · have hq : ¬ kv.1 = q := by
        rw [hk]
        exact hkq
      simp only [delOpt, List.filter] at ih ⊢
      rw [show (!(kv.1 == k)) = false by simp [hk]]
      simp only [lookupOpt, hq, if_neg hq] at ih ⊢
      exact ih
    · have hb : (kv.1 == k) = false := by
        rw [beq_eq_false_iff_ne]
        exact hk
      simp only [delOpt, List.filter] at ih ⊢
      rw [show (!(kv.1 == k)) = true by simp [hb]]
      by_cases hq : kv.1 = q
      · simp [lookupOpt, hq]
      · simp only [lookupOpt, if_neg hq] at ih ⊢
        exact ih

/-- An assigned key resolves to the assigned value. -/
theorem lookupOpt_setOpt_self (opts : Options) (k : String) (v : OptValue) :
    lookupOpt (setOpt opts k v) k = some v := by
  simp [setOpt, lookupOpt]

/-- Assignment of one key leaves every other key unchanged. -/
theorem lookupOpt_setOpt_ne (opts : Options) {k q : String} (h : q ≠ k) (v : OptValue) :
    lookupOpt (setOpt opts k v) q = lookupOpt opts q := by
  have hk : ¬ k = q := fun hc => h hc.symm
  simp [setOpt, lookupOpt, hk, lookupOpt_delOpt_ne opts h]

/-- When every api builds, the whole map succeeds. -/
theorem buildDocs_ok_of_all_ok (toDoc : Api → Except String Doc) :
    ∀ apis : List Api, (∀ a ∈ apis, ∃ d, toDoc a = Except.ok d) →
      ∃ docs, buildDocs toDoc apis = Except.ok docs := by
  intro apis
  induction apis with
  | nil => intro h; exact ⟨[], rfl⟩
  | cons a rest ih =>
    intro h
    obtain ⟨d, hd⟩ := h a (List.mem_cons_self a rest)
    obtain ⟨docs, hdocs⟩ := ih (fun x hx => h x (List.mem_cons_of_mem a hx))
    exact ⟨d :: docs, by simp [buildDocs, hd, hdocs]⟩

/-- The first failing api aborts the map with the wrapped message naming its
originating source file. -/
theorem buildDocs_error_first (toDoc : Api → Except String Doc) :
    ∀ (pre : List Api) (api : Api) (post : List Api) (cause : String),
      (∀ a ∈ pre, ∃ d, toDoc a = Except.ok d) → toDoc api = Except.error cause →
      buildDocs toDoc (pre ++ api :: post) =
        Except.error
          ("Doc generation failed for API in " ++ api.source.fileName ++ ", " ++ cause) := by
  intro pre
  induction pre with
  | nil =>
    intro api post cause hpre hfail
    simp [buildDocs, hfail]
  | cons a rest ih =>
    intro api post cause hpre hfail
    obtain ⟨d, hd⟩ := hpre a (List.mem_cons_self a rest)
    have hrest := ih api post cause (fun x hx => hpre x (List.mem_cons_of_mem a hx)) hfail
    simp [buildDocs, hd, hrest]

/-- Any failing api in the list makes the whole map fail. -/
theorem buildDocs_error_of_exists (toDoc : Api → Except String Doc) :
    ∀ apis : List Api, (∃ a ∈ apis, ∃ e, toDoc a = Except.error e) →
      ∃ msg, buildDocs toDoc apis = Except.error msg := by
  intro apis
  induction apis with
  | nil =>
    intro h
    obtain ⟨a, ha, _⟩ := h
    exact absurd ha (List.not_mem_nil a)
  | cons a rest ih =>
    intro h
    cases hd : toDoc a with
    | error e =>
      exact ⟨"Doc generation failed for API in " ++ a.source.fileName ++ ", " ++ e,
        by simp [buildDocs, hd]⟩
    | ok d =>
      obtain ⟨x, hx, e, he⟩ := h
      have hxr : x ∈ rest := by
        cases List.mem_cons.mp hx with
        | inl hxa =>
          rw [hxa] at he
          rw [he] at hd
          exact absurd hd (by simp)
        | inr hxr => exact hxr
      obtain ⟨msg, hmsg⟩ := ih ⟨x, hxr, e, he⟩
      exact ⟨msg, by simp [buildDocs, hd, hmsg]⟩

/-- On the sample extends cycle, loadOptions never returns, whatever the
stack budget: the code performs no cycle detection. -/
theorem loadOptions_cycFs_none :
    ∀ fuel : Nat, loadOptions cycFs fuel ("a.json") = none ∧
      loadOptions cycFs fuel ("b.json") = none := by
  intro fuel
  induction fuel with
  | zero => exact ⟨rfl, rfl⟩
  | succ n ih =>
    have ha : cycFs ("a.json") =
        some { extendsPath := some ("b.json"), compilerOptions := [] } := rfl
    have hb : cycFs ("b.json") =
        some { extendsPath := some ("a.json"), compilerOptions := [] } := rfl
    have hra : resolveParent ("a.json") ("b.json") = "b.json" := rfl
    have hrb : resolveParent ("b.json") ("a.json") = "a.json" := rfl
    constructor
    · show loadOptions cycFs (n + 1) ("a.json") = none
      simp only [loadOptions, ha, hra, ih.2]
    · show loadOptions cycFs (n + 1) ("b.json") = none
      simp only [loadOptions, hb, hrb, ih.1]

/-- C5: loadOptions yields the compilerOptions unchanged when no parent is
declared; with a declared parent it yields the recursive merge of the
parent options with the child compilerOptions; in the merge the child
value wins on every key present in both and parent-only keys remain. -/
theorem claim_C5_loadOptions_merge (fs : String → Option TsConfig) (fuel : Nat)
    (path : String) (c : TsConfig) :
    (fs path = some c → c.extendsPath = none →
      loadOptions fs (fuel + 1) path = some c.compilerOptions) ∧
    (∀ parent popts, fs path = some c → c.extendsPath = some parent →
      loadOptions fs fuel (resolveParent path parent) = some popts →
      loadOptions fs (fuel + 1) path = some (mergeOpts popts c.compilerOptions)) ∧
    (∀ (parentOpts childOpts : Options) (k : String),
      lookupOpt (mergeOpts parentOpts childOpts) k =
        match lookupOpt childOpts k with
        | some v => some v
        | none => lookupOpt parentOpts k) := by
  refine ⟨?_, ?_, ?_⟩
  · intro hfs hext
    simp only [loadOptions, hfs, hext]
  · intro parent popts hfs hext hp
    simp only [loadOptions, hfs, hext, hp]
  · intro parentOpts childOpts k
    simp only [mergeOpts]
    exact lookupOpt_append childOpts parentOpts k

/-- Witness for C5: the sample child configuration merges over its base;
the child noEmit value wins and the parent-only target key remains. -/
theorem claim_C5_witness :
    loadOptions chainFs 2 ("child.json") =
      some (mergeOpts [("target", OptValue.str ("es5")), ("noEmit", OptValue.bool false)]
        [("noEmit", OptValue.bool true)]) ∧
    lookupOpt (mergeOpts [("target", OptValue.str ("es5")), ("noEmit", OptValue.bool false)]
      [("noEmit", OptValue.bool true)]) ("noEmit") = some (OptValue.bool true) ∧
    lookupOpt (mergeOpts [("target", OptValue.str ("es5")), ("noEmit", OptValue.bool false)]
      [("noEmit", OptValue.bool true)]) ("target") = some (OptValue.str ("es5")) := by
  refine ⟨?_, ?_, ?_⟩
  · exact (claim_C5_loadOptions_merge chainFs 1 ("child.json")
      { extendsPath := some ("base.json"),
        compilerOptions := [("noEmit", OptValue.bool true)] }).2.1 ("base.json")
      [("target", OptValue.str ("es5")), ("noEmit", OptValue.bool false)] rfl rfl (by decide)
  · exact ((claim_C5_loadOptions_merge chainFs 0 ("") ⟨none, []⟩).2.2
      [("target", OptValue.str ("es5")), ("noEmit", OptValue.bool false)]
      [("noEmit", OptValue.bool true)] ("noEmit")).trans (by decide)
  · exact ((claim_C5_loadOptions_merge chainFs 0 ("") ⟨none, []⟩).2.2
      [("target", OptValue.str ("es5")), ("noEmit", OptValue.bool false)]
      [("noEmit", OptValue.bool true)] ("target")).trans (by decide)

/-- C6: whatever the loaded configuration held, the option set passed on to
program creation has removeComments false and noEmit true. -/
theorem claim_C6_overrides (options : Options) :
    lookupOpt (prepareOptions options) ("removeComments") = some (OptValue.bool false) ∧
    lookupOpt (prepareOptions options) ("noEmit") = some (OptValue.bool true) := by
  constructor
  · rw [prepareOptions, lookupOpt_setOpt_ne _ (by decide), lookupOpt_setOpt_self]
  · rw [prepareOptions, lookupOpt_setOpt_self]

/-- C9: loadOptions terminates with a merged option set whenever the extends
chain is finite and acyclic (any stack budget beyond the chain depth
succeeds), and on the sample cyclic chain it never returns, since no cycle
detection is performed. -/
theorem claim_C9_conditional_termination :
    (∀ (fs : String → Option TsConfig) (path : String) (n fuel : Nat),
      ChainDepth fs path n → n < fuel → ∃ opts, loadOptions fs fuel path = some opts) ∧
    (∀ fuel : Nat, loadOptions cycFs fuel ("a.json") = none) := by
  constructor
  · intro fs path n fuel h
    induction h generalizing fuel with
    | base path c hfs hext =>
      intro hlt
      obtain ⟨m, rfl⟩ : ∃ m, fuel = m + 1 := ⟨fuel - 1, by omega⟩
      exact ⟨c.compilerOptions, by simp only [loadOptions, hfs, hext]⟩
    | step path c parent n hfs hext hchain ih =>
      intro hlt
      obtain ⟨m, rfl⟩ : ∃ m, fuel = m + 1 := ⟨fuel - 1, by omega⟩
      obtain ⟨popts, hp⟩ := ih m (by omega)
      exact ⟨mergeOpts popts c.compilerOptions, by simp only [loadOptions, hfs, hext, hp]⟩
  · intro fuel
    exact (loadOptions_cycFs_none fuel).1

/-- Witness for C9: the sample two-file chain terminates with fuel 2, and
the sample cycle yields nothing at fuel 5. -/
theorem claim_C9_witness :
    (loadOptions chainFs 2 ("child.json")).isSome = true ∧
    loadOptions cycFs 5 ("a.json") = none := by
  constructor
  · obtain ⟨opts, h⟩ := claim_C9_conditional_termination.1 chainFs ("child.json") 1 2
      (ChainDepth.step ("child.json")
        { extendsPath := some ("base.json"),
          compilerOptions := [("noEmit", OptValue.bool true)] }
        ("base.json") 0 rfl rfl
        (ChainDepth.base _
          { extendsPath := none,
            compilerOptions := [("target", OptValue.str ("es5")), ("noEmit", OptValue.bool false)] }
          rfl rfl))
      (by omega)
    rw [h]
    rfl
  · exact claim_C9_conditional_termination.2 5

/-- C10: moduleResolution is always gone from the options handed to program
creation, and every key other than the three touched ones resolves exactly
as in the merge result. -/
theorem claim_C10_frame (options : Options) :
    lookupOpt (prepareOptions options) ("moduleResolution") = none ∧
    (∀ k : String, k ≠ ("removeComments") → k ≠ ("noEmit") → k ≠ ("moduleResolution") →
      lookupOpt (prepareOptions options) k = lookupOpt options k) := by
  constructor
  · rw [prepareOptions, lookupOpt_setOpt_ne _ (by decide), lookupOpt_setOpt_ne _ (by decide),
      lookupOpt_delOpt_self]
  · intro k h1 h2 h3
    rw [prepareOptions, lookupOpt_setOpt_ne _ h2, lookupOpt_setOpt_ne _ h1,
      lookupOpt_delOpt_ne _ h3]

/-- Witness for C10: the untouched target key survives preparation. -/
theorem claim_C10_witness :
    lookupOpt (prepareOptions [("target", OptValue.str ("es5"))]) ("target") =
      lookupOpt [("target", OptValue.str ("es5"))] ("target") :=
  (claim_C10_frame [("target", OptValue.str ("es5"))]).2 ("target")
    (by decide) (by decide) (by decide)

/-- C2: the document ordering - sortSelector on the id projection together
with the stable sort - induces a total order (total, transitive, and
antisymmetric on the case-insensitive primary key paired with the original
position), sorting is idempotent, and sorting is stable: the subsequence
at any fixed primary key is preserved. -/
theorem claim_C2_order_idempotent_stable {α : Type} (proj : α → String) :
    (∀ p q : α × Nat, tieLe proj p q ∨ tieLe proj q p) ∧
    (∀ p q r : α × Nat, tieLe proj p q → tieLe proj q r → tieLe proj p r) ∧
    (∀ p q : α × Nat, tieLe proj p q → tieLe proj q p →
      sortKey proj p.1 = sortKey proj q.1 ∧ p.2 = q.2) ∧
    (∀ l : List α, jsStableSort (sortSelector proj) (jsStableSort (sortSelector proj) l) =
      jsStableSort (sortSelector proj) l) ∧
    (∀ (k : List Char) (l : List α),
      (jsStableSort (sortSelector proj) l).filter (fun z => sortKey proj z == k) =
        l.filter (fun z => sortKey proj z == k)) := by
  refine ⟨tieLe_total proj, fun p q r => tieLe_trans proj, fun p q => tieLe_antisymm proj,
    ?_, ?_⟩
  · intro l
    unfold jsStableSort
    exact insertionSortBy_of_sorted _ _
      (insertionSortBy_sorted _ (sortSelector_le_total proj) l)
  · intro k l
    exact filter_insertionSortBy proj k l

/-- Witness for C2: a concrete tie-broken comparison obtained through
transitivity, and idempotence on a concrete document list. -/
theorem claim_C2_witness :
    tieLe (fun d : Doc => d.id) (docA, 3) (docB, 0) ∧
    jsStableSort (sortSelector (fun d : Doc => d.id))
        (jsStableSort (sortSelector (fun d : Doc => d.id)) [docB, docA]) =
      jsStableSort (sortSelector (fun d : Doc => d.id)) [docB, docA] := by
  constructor
  · exact (claim_C2_order_idempotent_stable (fun d : Doc => d.id)).2.1
      (docA, 3) (docA, 5) (docB, 0) (Or.inr ⟨rfl, by omega⟩) (Or.inl (by decide))
  · exact (claim_C2_order_idempotent_stable (fun d : Doc => d.id)).2.2.2.1 [docB, docA]

/-- C1: when building any document fails, main rejects and not one artifact
(per-document file or manifest) is written: all documents are built and
sorted before any write is issued. -/
theorem claim_C1_no_partial_writes (toDoc : Api → Except String Doc) (print : Doc → String)
    (apiRefsDir : String) (apis : List Api)
    (h : ∃ api ∈ apis, ∃ e, toDoc api = Except.error e) :
    (∃ msg, Compiler.main toDoc print apiRefsDir apis = Except.error msg) ∧
    writtenArtifacts (Compiler.main toDoc print apiRefsDir apis) = [] := by
  obtain ⟨msg, hmsg⟩ := buildDocs_error_of_exists toDoc apis h
  have hm : Compiler.main toDoc print apiRefsDir apis = Except.error msg := by
    unfold Compiler.main
    simp only [hmsg]
  exact ⟨⟨msg, hm⟩, by rw [hm]; rfl⟩

/-- Witness for C1: a failing api in the sample run leaves no artifacts. -/
theorem claim_C1_witness :
    writtenArtifacts (Compiler.main sampleToDoc samplePrint ("dist") [apiA, apiBad]) = [] :=
  (claim_C1_no_partial_writes sampleToDoc samplePrint ("dist") [apiA, apiBad]
    ⟨apiBad, by simp, "boom", rfl⟩).2

/-- C4: the first failing document build aborts the whole run with an error
wrapping the underlying cause and naming the originating source file; main
produces no document set. -/
theorem claim_C4_wrapped_abort (toDoc : Api → Except String Doc) (print : Doc → String)
    (apiRefsDir : String) (pre post : List Api) (api : Api) (cause : String)
    (hpre : ∀ a ∈ pre, ∃ d, toDoc a = Except.ok d)
    (hfail : toDoc api = Except.error cause) :
    Compiler.main toDoc print apiRefsDir (pre ++ api :: post) =
      Except.error
        ("Doc generation failed for API in " ++ api.source.fileName ++ ", " ++ cause) := by
  have hb := buildDocs_error_first toDoc pre api post cause hpre hfail
  unfold Compiler.main
  simp only [hb]

/-- Witness for C4: the sample failing api aborts the run with the wrapped
message naming bad.ts. -/
theorem claim_C4_witness :
    Compiler.main sampleToDoc samplePrint ("dist") [apiA, apiBad, apiB] =
      Except.error ("Doc generation failed for API in bad.ts, boom") :=
  claim_C4_wrapped_abort sampleToDoc samplePrint ("dist") [apiA] [apiB] apiBad ("boom")
    (by
      intro a ha
      rw [List.mem_singleton] at ha
      rw [ha]
      exact ⟨docA, rfl⟩)
    rfl

/-- C3: a successful run writes a manifest made of the site title line, the
nav header and one entry per document mapping its id to name.md, in the
deterministic sorted order of the document set; in particular documents
with ids a.ref and b.ref are listed a.ref first whatever the discovery
order. -/
theorem claim_C3_manifest_order (toDoc : Api → Except String Doc) (print : Doc → String)
    (apiRefsDir : String) (apis : List Api) (docs : List Doc)
    (hb : buildDocs toDoc apis = Except.ok docs) :
    (∃ out, Compiler.main toDoc print apiRefsDir apis = Except.ok out ∧
      out.manifest = (mkdocsPath apiRefsDir,
        joinLines (("site_name: api-references") :: ("nav:") ::
          (jsStableSort (sortSelector (fun x : Doc => x.id)) docs).map manifestEntry))) ∧
    (∀ d1 d2 : Doc, d1.id = "a.ref" → d2.id = "b.ref" →
      jsStableSort (sortSelector (fun x : Doc => x.id)) [d2, d1] = [d1, d2] ∧
      jsStableSort (sortSelector (fun x : Doc => x.id)) [d1, d2] = [d1, d2]) := by
  constructor
  · have hm : Compiler.main toDoc print apiRefsDir apis = Except.ok
        { docFiles := (jsStableSort (sortSelector (fun x : Doc => x.id)) docs).map
            (fun d => (docPath apiRefsDir d.name, print d)),
          manifest := (mkdocsPath apiRefsDir,
            manifestContent (jsStableSort (sortSelector (fun x : Doc => x.id)) docs)) } := by
      unfold Compiler.main
      simp only [hb]
    exact ⟨_, hm, rfl⟩
  · intro d1 d2 h1 h2
    have hgt : sortSelector (fun x : Doc => x.id) d2 d1 = Ordering.gt := by
      simp only [sortSelector, sortKey]
      rw [h1, h2]
      decide
    have hlt : sortSelector (fun x : Doc => x.id) d1 d2 = Ordering.lt := by
      simp only [sortSelector, sortKey]
      rw [h1, h2]
      decide
    have hle : cmpLe (sortSelector (fun x : Doc => x.id)) d2 d1 = false := by
      rw [cmpLe_false_iff]
      exact hgt
    have hle2 : cmpLe (sortSelector (fun x : Doc => x.id)) d1 d2 = true := by
      rw [cmpLe_true_iff, hlt]
      simp
    constructor
    · simp [jsStableSort, insertionSortBy, insertBy, hle]
    · simp [jsStableSort, insertionSortBy, insertBy, hle2]

/-- Witness for C3: the sample run discovers b.ref first yet the manifest
lists a.ref first. -/
theorem claim_C3_witness :
    Compiler.main sampleToDoc samplePrint ("dist") [apiB, apiA] = Except.ok
      { docFiles := [("dist/docs/apiA.md", "# apiA"), ("dist/docs/apiB.md", "# apiB")],
        manifest := ("dist/mkdocs.yml",
          joinLines [("site_name: api-references"), ("nav:"),
            manifestEntry docA, manifestEntry docB]) } ∧
    jsStableSort (sortSelector (fun x : Doc => x.id)) [docB, docA] = [docA, docB] := by
  constructor
  · rfl
  · exact ((claim_C3_manifest_order sampleToDoc samplePrint ("dist") [apiB, apiA]
      [docB, docA] rfl).2 docA docB rfl rfl).1

/-- C7: a successful run writes exactly one artifact per document of the
sorted set, at the path derived from the document name as name.md under
the docs output directory, and two documents get the same path exactly
when their names are equal. -/
theorem claim_C7_artifact_paths (toDoc : Api → Except String Doc) (print : Doc → String)
    (apiRefsDir : String) (apis : List Api) (docs : List Doc)
    (hb : buildDocs toDoc apis = Except.ok docs) :
    (∃ out, Compiler.main toDoc print apiRefsDir apis = Except.ok out ∧
      out.docFiles = (jsStableSort (sortSelector (fun x : Doc => x.id)) docs).map
        (fun d => (docPath apiRefsDir d.name, print d)) ∧
      out.docFiles.length = docs.length) ∧
    (∀ n1 n2 : String, docPath apiRefsDir n1 = docPath apiRefsDir n2 ↔ n1 = n2) := by
  constructor
  · have hm : Compiler.main toDoc print apiRefsDir apis = Except.ok
        { docFiles := (jsStableSort (sortSelector (fun x : Doc => x.id)) docs).map
            (fun d => (docPath apiRefsDir d.name, print d)),
          manifest := (mkdocsPath apiRefsDir,
            manifestContent (jsStableSort (sortSelector (fun x : Doc => x.id)) docs)) } := by
      unfold Compiler.main
      simp only [hb]
    refine ⟨_, hm, rfl, ?_⟩
    simp only [List.length_map, jsStableSort, insertionSortBy_length]
  · intro n1 n2
    constructor
    · intro h
      have hd := congrArg String.data h
      simp only [docPath, String.data_append] at hd
      exact String.ext (List.append_cancel_left (List.append_cancel_right hd))
    · intro h
      rw [h]

/-- Witness for C7: path equality at concrete names. -/
theorem claim_C7_witness :
    (docPath ("dist") ("apiA") = docPath ("dist") ("apiB") ↔ ("apiA" : String) = ("apiB")) ∧
    (docPath ("dist") ("apiA") = docPath ("dist") ("apiA") ↔ ("apiA" : String) = ("apiA")) :=
  ⟨(claim_C7_artifact_paths sampleToDoc samplePrint ("dist") [apiB, apiA]
      [docB, docA] rfl).2 ("apiA") ("apiB"),
    (claim_C7_artifact_paths sampleToDoc samplePrint ("dist") [apiB, apiA]
      [docB, docA] rfl).2 ("apiA") ("apiA")⟩

/-- C8: the process exits with status 1 and reports the error message on any
pipeline failure, and exits with status 0 on success. -/
theorem claim_C8_exit_status (toDoc : Api → Except String Doc) (print : Doc → String)
    (apiRefsDir : String) (apis : List Api) :
    ((∃ api ∈ apis, ∃ e, toDoc api = Except.error e) →
      (runProcess (Compiler.main toDoc print apiRefsDir apis)).1 = 1) ∧
    ((∀ api ∈ apis, ∃ d, toDoc api = Except.ok d) →
      runProcess (Compiler.main toDoc print apiRefsDir apis) = (0, none)) ∧
    (∀ e, Compiler.main toDoc print apiRefsDir apis = Except.error e →
      runProcess (Compiler.main toDoc print apiRefsDir apis) = (1, some e)) := by
  refine ⟨?_, ?_, ?_⟩
  · intro h
    obtain ⟨msg, hmsg⟩ := buildDocs_error_of_exists toDoc apis h
    have hm : Compiler.main toDoc print apiRefsDir apis = Except.error msg := by
      unfold Compiler.main
      simp only [hmsg]
    rw [hm]
    rfl
  · intro h
    obtain ⟨docs, hdocs⟩ := buildDocs_ok_of_all_ok toDoc apis h
    have hm : Compiler.main toDoc print apiRefsDir apis = Except.ok
        { docFiles := (jsStableSort (sortSelector (fun x : Doc => x.id)) docs).map
            (fun d => (docPath apiRefsDir d.name, print d)),
          manifest := (mkdocsPath apiRefsDir,
            manifestContent (jsStableSort (sortSelector (fun x : Doc => x.id)) docs)) } := by
      unfold Compiler.main
      simp only [hdocs]
    rw [hm]
    rfl
  · intro e he
    rw [he]
    rfl

/-- Witness for C8: the failing sample run exits 1, the successful sample
run exits 0 with nothing reported. -/
theorem claim_C8_witness :
    (runProcess (Compiler.main sampleToDoc samplePrint ("dist") [apiA, apiBad])).1 = 1 ∧
    runProcess (Compiler.main sampleToDoc samplePrint ("dist") [apiB, apiA]) = (0, none) := by
  constructor
  · exact (claim_C8_exit_status sampleToDoc samplePrint ("dist") [apiA, apiBad]).1
      ⟨apiBad, by simp, "boom", rfl⟩
  · exact (claim_C8_exit_status sampleToDoc samplePrint ("dist") [apiB, apiA]).2.1
      (by
        intro a ha
        rw [List.mem_cons] at ha
        cases ha with
        | inl h => rw [h]; exact ⟨docB, rfl⟩
        | inr h =>
          rw [List.mem_singleton] at h
          rw [h]
          exact ⟨docA, rfl⟩)
